import Mathlib

/-!
Verification of the whitespace analysis engine of patent-scout.

Shallow embedding of the relevant parts of `app/whitespace_api.py` and
`app/whitespace_signals.py`:

* the assignee canonicalizer (`_remove_punct_and_collapse`,
  `_canonicalize_assignee_for_lookup`);
* the per-cluster momentum aggregation (`neighbor_momentum`, whose
  arithmetic lives in the SQL statement it issues);
* the opportunity scorer (`compute_whitespace_metrics`);
* the four signal detectors and their shared helpers
  (`slope_conf`, `pct_rank`, `SignalComputation.status`);
* the rolling-window and group-payload logic of `build_group_signals`
  and the node-relevance accumulation used by `get_whitespace_graph`.

Python floats are modelled as real numbers (exact arithmetic); dates are
modelled as integer day numbers of the proleptic Gregorian calendar,
matching `datetime.date` ordinals up to a constant offset.
-/

/-! ### Character-level helpers for the assignee canonicalizer

`_remove_punct_and_collapse` does `re.sub(r"[^0-9A-Za-z]+", " ", value)`,
collapses whitespace runs, and upper-cases.  The character classes involved
are ASCII-only both in the regex and in Lean's `Char.isAlphanum`, and
`str.upper` agrees with `Char.toUpper` on ASCII, so we model the per-character
action of (substitution then upper-casing) by `cleanChar` below.  Upper-casing
commutes with the whitespace collapse because it fixes the space character.
-/

lemma char_toNat_ofNat_of_lt {n : ℕ} (h : n < 0xd800) : (Char.ofNat n).toNat = n := by
  have hv : n.isValidChar := Or.inl h
  simp [Char.ofNat, hv, Char.ofNatAux, Char.toNat, UInt32.toNat]

lemma char_isUpper_iff (c : Char) : c.isUpper = true ↔ 65 ≤ c.toNat ∧ c.toNat ≤ 90 := by
  simp [Char.isUpper]
  exact Iff.rfl

lemma char_isLower_iff (c : Char) : c.isLower = true ↔ 97 ≤ c.toNat ∧ c.toNat ≤ 122 := by
  simp [Char.isLower]
  exact Iff.rfl

lemma char_isDigit_iff (c : Char) : c.isDigit = true ↔ 48 ≤ c.toNat ∧ c.toNat ≤ 57 := by
  simp [Char.isDigit]
  exact Iff.rfl

lemma char_toUpper_eq_of_not_lower (c : Char) (h : ¬ (97 ≤ c.toNat ∧ c.toNat ≤ 122)) :
    c.toUpper = c := by
  simp [Char.toUpper, h]

lemma char_toUpper_eq_of_lower (c : Char) (h : 97 ≤ c.toNat ∧ c.toNat ≤ 122) :
    c.toUpper = Char.ofNat (c.toNat - 32) := by
  simp [Char.toUpper, h]

lemma char_isAlphanum_toUpper (c : Char) (h : c.isAlphanum = true) :
    c.toUpper.isAlphanum = true := by
  by_cases hl : 97 ≤ c.toNat ∧ c.toNat ≤ 122
  · rw [char_toUpper_eq_of_lower c hl]
    have ht : (Char.ofNat (c.toNat - 32)).toNat = c.toNat - 32 :=
      char_toNat_ofNat_of_lt (by omega)
    simp [Char.isAlphanum, Char.isAlpha, char_isUpper_iff, ht]
    left; left; omega
  · rwa [char_toUpper_eq_of_not_lower c hl]

lemma char_toUpper_toUpper (c : Char) : c.toUpper.toUpper = c.toUpper := by
  by_cases hl : 97 ≤ c.toNat ∧ c.toNat ≤ 122
  · rw [char_toUpper_eq_of_lower c hl]
    have ht : (Char.ofNat (c.toNat - 32)).toNat = c.toNat - 32 :=
      char_toNat_ofNat_of_lt (by omega)
    apply char_toUpper_eq_of_not_lower
    rw [ht]; omega
  · rw [char_toUpper_eq_of_not_lower c hl, char_toUpper_eq_of_not_lower c hl]

/-- One character under `re.sub(r"[^0-9A-Za-z]+", " ", value)` followed by
`.upper()`: alphanumeric characters are upper-cased, everything else becomes
a space (runs of spaces are collapsed afterwards by the word split). -/
def cleanChar (c : Char) : Char := if c.isAlphanum then c.toUpper else ' '

/-- A character that the canonicalizer can output inside a token:
alphanumeric and fixed by upper-casing. -/
def goodChar (c : Char) : Prop := c.isAlphanum = true ∧ c.toUpper = c

lemma goodChar_cleanChar {c d : Char} (h : cleanChar c = d) (hne : d ≠ ' ') : goodChar d := by
  unfold cleanChar at h
  by_cases ha : c.isAlphanum = true
  · rw [if_pos ha] at h
    subst h
    exact ⟨char_isAlphanum_toUpper c ha, char_toUpper_toUpper c⟩
  · rw [if_neg ha] at h
    exact absurd h.symm hne

lemma goodChar_ne_space {c : Char} (h : goodChar c) : c ≠ ' ' := by
  intro he
  have := h.1
  rw [he] at this
  simp [Char.isAlphanum, Char.isAlpha, Char.isUpper, Char.isLower, Char.isDigit] at this

lemma goodChar_cleanChar_self {c : Char} (h : goodChar c) : cleanChar c = c := by
  unfold cleanChar
  rw [if_pos h.1, h.2]

lemma cleanChar_space : cleanChar ' ' = ' ' := by
  simp [cleanChar, Char.isAlphanum, Char.isAlpha, Char.isUpper, Char.isLower, Char.isDigit]

lemma goodChar_toNat_lb {c : Char} (h : goodChar c) : 48 ≤ c.toNat := by
  have h1 := h.1
  simp [Char.isAlphanum, Char.isAlpha] at h1
  rcases h1 with (h1 | h1) | h1
  · rw [char_isUpper_iff] at h1; omega
  · rw [char_isLower_iff] at h1; omega
  · rw [char_isDigit_iff] at h1; omega

lemma goodChar_not_whitespace {c : Char} (h : goodChar c) : c.isWhitespace = false := by
  have hb := goodChar_toNat_lb h
  have h32 : c ≠ ' ' := fun he => by subst he; exact absurd hb (by decide)
  have h9 : c ≠ '\t' := fun he => by subst he; exact absurd hb (by decide)
  have h13 : c ≠ '\r' := fun he => by subst he; exact absurd hb (by decide)
  have h10 : c ≠ '\n' := fun he => by subst he; exact absurd hb (by decide)
  simp [Char.isWhitespace, h32, h9, h13, h10]

/-! ### Word splitting and joining (`str.split()` / `" ".join`)

After the punctuation substitution the only whitespace character left is
`' '`, so Python's `str.split()` is a split on runs of spaces that drops
empty pieces.  We work on `List Char` and convert at the `String` boundary.
-/

/-- Helper for `splitWords`: `acc` holds the current word reversed. -/
def splitWordsAux : List Char → List Char → List (List Char)
  | [], acc => if acc = [] then [] else [acc.reverse]
  | c :: rest, acc =>
    if c = ' ' then
      (if acc = [] then splitWordsAux rest [] else acc.reverse :: splitWordsAux rest [])
    else splitWordsAux rest (c :: acc)

/-- `str.split()` on a string whose only whitespace is `' '`. -/
def splitWords (l : List Char) : List (List Char) := splitWordsAux l []

/-- `" ".join(words)` at the character-list level. -/
def joinWords : List (List Char) → List Char
  | [] => []
  | [w] => w
  | w :: ws => w ++ ' ' :: joinWords ws

lemma splitWordsAux_mem_word {l : List Char} :
    ∀ {acc w}, (∀ c ∈ acc, c ≠ ' ') → w ∈ splitWordsAux l acc →
      w ≠ [] ∧ ∀ c ∈ w, c ≠ ' ' ∧ (c ∈ l ∨ c ∈ acc) := by
  induction l with
  | nil =>
    intro acc w haccs hw
    unfold splitWordsAux at hw
    by_cases hacc : acc = ([] : List Char)
    · rw [if_pos hacc] at hw; simp at hw
    · rw [if_neg hacc] at hw
      simp only [List.mem_singleton] at hw
      subst hw
      refine ⟨by simpa using hacc, fun c hc => ?_⟩
      rw [List.mem_reverse] at hc
      exact ⟨haccs c hc, Or.inr hc⟩
  | cons a rest ih =>
    intro acc w haccs hw
    unfold splitWordsAux at hw
    by_cases ha : a = ' '
    · rw [if_pos ha] at hw
      by_cases hacc : acc = ([] : List Char)
      · rw [if_pos hacc] at hw
        obtain ⟨hne, hmem⟩ := ih (by simp) hw
        refine ⟨hne, fun c hc => ⟨(hmem c hc).1, ?_⟩⟩
        rcases (hmem c hc).2 with h | h
        · exact Or.inl (List.mem_cons_of_mem a h)
        · simp at h
      · rw [if_neg hacc] at hw
        rcases List.mem_cons.mp hw with hw | hw
        · subst hw
          refine ⟨by simpa using hacc, fun c hc => ?_⟩
          rw [List.mem_reverse] at hc
          exact ⟨haccs c hc, Or.inr hc⟩
        · obtain ⟨hne, hmem⟩ := ih (by simp) hw
          refine ⟨hne, fun c hc => ⟨(hmem c hc).1, ?_⟩⟩
          rcases (hmem c hc).2 with h | h
          · exact Or.inl (List.mem_cons_of_mem a h)
          · simp at h
    · rw [if_neg ha] at hw
      have haccs' : ∀ c ∈ a :: acc, c ≠ ' ' := by
        intro c hc
        rcases List.mem_cons.mp hc with hc | hc
        · subst hc; exact ha
        · exact haccs c hc
      obtain ⟨hne, hmem⟩ := ih haccs' hw
      refine ⟨hne, fun c hc => ⟨(hmem c hc).1, ?_⟩⟩
      rcases (hmem c hc).2 with h | h
      · exact Or.inl (List.mem_cons_of_mem a h)
      · rcases List.mem_cons.mp h with h | h
        · exact Or.inl (by rw [h]; exact List.mem_cons_self a rest)
        · exact Or.inr h

lemma splitWords_mem_word {l : List Char} {w : List Char} (hw : w ∈ splitWords l) :
    w ≠ [] ∧ ∀ c ∈ w, c ≠ ' ' ∧ c ∈ l := by
  obtain ⟨hne, hmem⟩ := @splitWordsAux_mem_word l [] w (by simp) hw
  refine ⟨hne, fun c hc => ⟨(hmem c hc).1, ?_⟩⟩
  rcases (hmem c hc).2 with h | h
  · exact h
  · simp at h

lemma splitWordsAux_cons_of_ne (c : Char) (rest acc : List Char) (hc : c ≠ ' ') :
    splitWordsAux (c :: rest) acc = splitWordsAux rest (c :: acc) := by
  rw [show splitWordsAux (c :: rest) acc =
      (if c = ' ' then
        (if acc = [] then splitWordsAux rest [] else acc.reverse :: splitWordsAux rest [])
      else splitWordsAux rest (c :: acc)) from rfl, if_neg hc]

lemma splitWordsAux_append_no_space :
    ∀ {w : List Char} {l acc}, (∀ c ∈ w, c ≠ ' ') →
      splitWordsAux (w ++ l) acc = splitWordsAux l (w.reverse ++ acc) := by
  intro w
  induction w with
  | nil => intro l acc _; simp
  | cons c w' ih =>
    intro l acc hs
    have hc : c ≠ ' ' := hs c (List.mem_cons_self c w')
    rw [List.cons_append, splitWordsAux_cons_of_ne c (w' ++ l) acc hc,
      ih (fun d hd => hs d (List.mem_cons_of_mem c hd))]
    congr 1
    simp

lemma splitWords_joinWords :
    ∀ {ws : List (List Char)}, (∀ w ∈ ws, w ≠ [] ∧ ∀ c ∈ w, c ≠ ' ') →
      splitWords (joinWords ws) = ws := by
  intro ws
  induction ws with
  | nil => intro _; rfl
  | cons w ws' ih =>
    intro hg
    obtain ⟨hwne, hwns⟩ := hg w (List.mem_cons_self w ws')
    cases ws' with
    | nil =>
      show splitWordsAux w [] = [w]
      rw [show splitWordsAux w [] = splitWordsAux (w ++ []) [] by rw [List.append_nil],
        splitWordsAux_append_no_space hwns]
      unfold splitWordsAux
      rw [if_neg (by simpa using hwne)]
      simp
    | cons w2 ws'' =>
      show splitWordsAux (w ++ ' ' :: joinWords (w2 :: ws'')) [] = w :: w2 :: ws''
      rw [splitWordsAux_append_no_space hwns]
      have hsp : splitWordsAux (' ' :: joinWords (w2 :: ws'')) (w.reverse ++ []) =
          (if (w.reverse ++ []) = ([] : List Char) then splitWordsAux (joinWords (w2 :: ws'')) []
            else (w.reverse ++ []).reverse :: splitWordsAux (joinWords (w2 :: ws'')) []) := rfl
      rw [hsp, if_neg (by simpa using hwne)]
      have hrec := ih (fun v hv => hg v (List.mem_cons_of_mem w hv))
      unfold splitWords at hrec
      rw [hrec]
      simp

lemma mem_joinWords {ws : List (List Char)} {c : Char} (hc : c ∈ joinWords ws) :
    c = ' ' ∨ ∃ w ∈ ws, c ∈ w := by
  induction ws with
  | nil => simp [joinWords] at hc
  | cons w ws' ih =>
    cases ws' with
    | nil => exact Or.inr ⟨w, List.mem_cons_self w [], hc⟩
    | cons w2 ws'' =>
      rw [show joinWords (w :: w2 :: ws'') = w ++ ' ' :: joinWords (w2 :: ws'') from rfl] at hc
      rcases List.mem_append.mp hc with h | h
      · exact Or.inr ⟨w, List.mem_cons_self w (w2 :: ws''), h⟩
      · rcases List.mem_cons.mp h with h | h
        · exact Or.inl h
        · rcases ih h with h | ⟨v, hv, hcv⟩
          · exact Or.inl h
          · exact Or.inr ⟨v, List.mem_cons_of_mem w hv, hcv⟩

lemma joinWords_ne_nil {ws : List (List Char)} (hne : ws ≠ [])
    (hw : ∀ w ∈ ws, w ≠ []) : joinWords ws ≠ [] := by
  cases ws with
  | nil => exact absurd rfl hne
  | cons w ws' =>
    cases ws' with
    | nil => exact hw w (List.mem_cons_self w [])
    | cons w2 ws'' =>
      show w ++ ' ' :: joinWords (w2 :: ws'') ≠ []
      simp

lemma joinWords_head? {w : List Char} {ws : List (List Char)} (hne : w ≠ []) :
    (joinWords (w :: ws)).head? = w.head? := by
  cases ws with
  | nil => rfl
  | cons w2 ws' =>
    show (w ++ ' ' :: joinWords (w2 :: ws')).head? = w.head?
    cases w with
    | nil => exact absurd rfl hne
    | cons c t => rfl

lemma joinWords_getLast? :
    ∀ {ws : List (List Char)} {w : List Char}, (∀ v ∈ ws, v ≠ []) →
      (List.getLast? ws = some w) → (joinWords ws).getLast? = w.getLast? := by
  intro ws
  induction ws with
  | nil => intro w _ hlast; simp at hlast
  | cons v ws' ih =>
    intro w hvs hlast
    cases ws' with
    | nil =>
      simp at hlast
      subst hlast
      rfl
    | cons w2 ws'' =>
      have hlast' : List.getLast? (w2 :: ws'') = some w := by
        rw [List.getLast?_cons_cons] at hlast
        exact hlast
      have hrec := ih (fun u hu => hvs u (List.mem_cons_of_mem v hu)) hlast'
      show (v ++ ' ' :: joinWords (w2 :: ws'')).getLast? = w.getLast?
      rw [List.getLast?_append, ← hrec]
      have hjne : joinWords (w2 :: ws'') ≠ [] :=
        joinWords_ne_nil (by simp) (fun u hu => hvs u (List.mem_cons_of_mem v hu))
      cases hj : joinWords (w2 :: ws'') with
      | nil => exact absurd hj hjne
      | cons a t =>
        rw [List.getLast?_cons_cons]
        cases hl : (a :: t).getLast? with
        | none => simp at hl
        | some b => rfl

/-! ### The assignee canonicalizer (`whitespace_api.py`)

`_ASSIGNEE_SUFFIXES` is the raw suffix list, de-duplicated (it has no
duplicates) and stably sorted by length, longest first, exactly the result
of `sorted(..., key=len, reverse=True)` in the source (Python's sort is
stable, so entries of equal length keep their original order). -/

def _ASSIGNEE_RAW_SUFFIXES : List String :=
  ["INC", "LLC", "CORP", "LTD", "CORPORATION", "INCORPORATED", "INCORP",
   "COMPANY", "LIMITED", "GMBH", "ASS", "PTY", "MFF", "SYS", "MAN", "L Y",
   "L P", "LY", "LP", "OY", "NV", "SAS", "CO", "BV", "AG", "A G", "A B",
   "O Y", "N V", "S E", "N A", "MANF", "INST", "B V", "INT", "IND", "KK",
   "SE", "AB", "INTL", "INDST", "NA"]

def _ASSIGNEE_SUFFIXES : List String :=
  ["INCORPORATED", "CORPORATION", "COMPANY", "LIMITED", "INCORP", "INDST",
   "CORP", "GMBH", "MANF", "INST", "INTL",
   "INC", "LLC", "LTD", "ASS", "PTY", "MFF", "SYS", "MAN", "L Y", "L P",
   "SAS", "A G", "A B", "O Y", "N V", "S E", "N A", "B V", "INT", "IND",
   "LY", "LP", "OY", "NV", "CO", "BV", "AG", "KK", "SE", "AB", "NA"]

/-- One pass of the inner `for suffix in _ASSIGNEE_SUFFIXES` loop of
`_canonicalize_assignee_for_lookup`: the first suffix that matches the tail
of `tokens` is stripped (`tokens[:-n]` / `tokens[:-1]`) and the loop breaks;
`none` means no suffix matched (so `changed` stays `False`). -/
def stripOnceWith : List String → List (List Char) → Option (List (List Char))
  | [], _ => none
  | sfx :: rest, tokens =>
    if sfx.data.contains ' ' then
      -- two-word suffix: parts = suffix.split(); match " ".join(tokens[-n:]) == suffix
      let parts := splitWords sfx.data
      let n := parts.length
      if n ≤ tokens.length ∧ joinWords (List.drop (tokens.length - n) tokens) = sfx.data
      then some (List.take (tokens.length - n) tokens)
      else stripOnceWith rest tokens
    else
      -- single-word suffix: match tokens[-1] == suffix
      if tokens ≠ [] ∧ List.getLast? tokens = some sfx.data
      then some (List.dropLast tokens)
      else stripOnceWith rest tokens

/-- The `while changed and tokens` loop.  Each successful pass removes at
least one token, so `tokens.length` passes always reach the fixed point;
the fuel argument makes the recursion structural. -/
def stripSuffixTokens : ℕ → List (List Char) → List (List Char)
  | 0, tokens => tokens
  | fuel + 1, tokens =>
    if tokens = [] then tokens
    else
      match stripOnceWith _ASSIGNEE_SUFFIXES tokens with
      | none => tokens
      | some t => stripSuffixTokens fuel t

/-- `value.strip()` for the trailing/leading whitespace removal in
`" ".join(tokens).strip()`. -/
def pyStrip (l : List Char) : List Char :=
  ((l.dropWhile Char.isWhitespace).reverse.dropWhile Char.isWhitespace).reverse

/-- `_remove_punct_and_collapse`: replace `[^0-9A-Za-z]+` runs by one space,
trim, upper-case.  (`" ".join(cleaned.split())` collapses the runs and trims;
upper-casing is applied per character, which commutes with the collapse.) -/
def _remove_punct_and_collapse (value : String) : String :=
  String.mk (joinWords (splitWords (value.data.map cleanChar)))

/-- The token list `_remove_punct_and_collapse(name).split()` of
`_canonicalize_assignee_for_lookup`. -/
def canonTokens (name : String) : List (List Char) :=
  splitWords (_remove_punct_and_collapse name).data

/-- `_canonicalize_assignee_for_lookup` from `whitespace_api.py`. -/
def _canonicalize_assignee_for_lookup (name : String) : String :=
  if name = "" then ""
  else
    let tokens := canonTokens name
    if tokens = [] then ""
    else String.mk (pyStrip (joinWords (stripSuffixTokens tokens.length tokens)))

lemma stripOnceWith_nil_tokens : ∀ S : List String, stripOnceWith S [] = none := by
  intro S
  induction S with
  | nil => rfl
  | cons sfx rest ih =>
    unfold stripOnceWith
    by_cases hsp : sfx.data.contains ' '
    · rw [if_pos hsp]
      have hcond : ¬ ((splitWords sfx.data).length ≤ ([] : List (List Char)).length ∧
          joinWords (List.drop (([] : List (List Char)).length - (splitWords sfx.data).length) []) = sfx.data) := by
        rintro ⟨hle, hjoin⟩
        have : sfx.data ≠ [] := by
          intro he
          rw [he] at hsp
          simp [List.contains] at hsp
        rw [List.drop_nil] at hjoin
        exact this (hjoin ▸ rfl)
      rw [if_neg hcond]
      exact ih
    · rw [if_neg hsp]
      have hcond : ¬ (([] : List (List Char)) ≠ [] ∧
          List.getLast? ([] : List (List Char)) = some sfx.data) := by
        rintro ⟨hne, _⟩
        exact hne rfl
      rw [if_neg hcond]
      exact ih

lemma stripOnceWith_length :
    ∀ {S : List String} {tokens t : List (List Char)},
      stripOnceWith S tokens = some t → t.length < tokens.length := by
  intro S
  induction S with
  | nil => intro tokens t h; simp [stripOnceWith] at h
  | cons sfx rest ih =>
    intro tokens t h
    unfold stripOnceWith at h
    by_cases hsp : sfx.data.contains ' '
    · rw [if_pos hsp] at h
      by_cases hcond : (splitWords sfx.data).length ≤ tokens.length ∧
          joinWords (List.drop (tokens.length - (splitWords sfx.data).length) tokens) = sfx.data
      · rw [if_pos hcond] at h
        obtain ⟨hle, hjoin⟩ := hcond
        have hn1 : 1 ≤ (splitWords sfx.data).length := by
          by_contra hn
          have hz : (splitWords sfx.data).length = 0 := by omega
          rw [hz, Nat.sub_zero, List.drop_length] at hjoin
          have : sfx.data ≠ [] := by
            intro he
            rw [he] at hsp
            simp [List.contains] at hsp
          exact this (hjoin ▸ rfl)
        have htk : tokens ≠ [] := by
          intro he
          rw [he] at hle
          have hz : (splitWords sfx.data).length = 0 := Nat.le_zero.mp hle
          omega
        have h1 : 1 ≤ tokens.length := by
          cases tokens with
          | nil => exact absurd rfl htk
          | cons a b => simp
        injection h with h
        subst h
        rw [List.length_take]
        omega
      · rw [if_neg hcond] at h
        exact ih h
    · rw [if_neg hsp] at h
      by_cases hcond : tokens ≠ [] ∧ List.getLast? tokens = some sfx.data
      · rw [if_pos hcond] at h
        injection h with h
        subst h
        rw [List.length_dropLast]
        have : 1 ≤ tokens.length := by
          cases tokens with
          | nil => exact absurd rfl hcond.1
          | cons a b => simp
        omega
      · rw [if_neg hcond] at h
        exact ih h

lemma stripOnceWith_subset :
    ∀ {S : List String} {tokens t : List (List Char)},
      stripOnceWith S tokens = some t → ∀ w ∈ t, w ∈ tokens := by
  intro S
  induction S with
  | nil => intro tokens t h; simp [stripOnceWith] at h
  | cons sfx rest ih =>
    intro tokens t h
    unfold stripOnceWith at h
    by_cases hsp : sfx.data.contains ' '
    · rw [if_pos hsp] at h
      by_cases hcond : (splitWords sfx.data).length ≤ tokens.length ∧
          joinWords (List.drop (tokens.length - (splitWords sfx.data).length) tokens) = sfx.data
      · rw [if_pos hcond] at h
        injection h with h
        subst h
        intro w hw
        exact List.take_subset _ _ hw
      · rw [if_neg hcond] at h
        exact ih h
    · rw [if_neg hsp] at h
      by_cases hcond : tokens ≠ [] ∧ List.getLast? tokens = some sfx.data
      · rw [if_pos hcond] at h
        injection h with h
        subst h
        intro w hw
        exact List.dropLast_subset _ hw
      · rw [if_neg hcond] at h
        exact ih h

lemma stripSuffixTokens_subset :
    ∀ (fuel : ℕ) (tokens : List (List Char)) (w : List Char),
      w ∈ stripSuffixTokens fuel tokens → w ∈ tokens := by
  intro fuel
  induction fuel with
  | zero => intro tokens w hw; exact hw
  | succ n ih =>
    intro tokens w hw
    unfold stripSuffixTokens at hw
    by_cases he : tokens = ([] : List (List Char))
    · rw [if_pos he] at hw; exact hw
    · rw [if_neg he] at hw
      cases hstrip : stripOnceWith _ASSIGNEE_SUFFIXES tokens with
      | none => rw [hstrip] at hw; exact hw
      | some t =>
        rw [hstrip] at hw
        exact stripOnceWith_subset hstrip w (ih t w hw)

lemma stripSuffixTokens_of_none {tokens : List (List Char)}
    (h : stripOnceWith _ASSIGNEE_SUFFIXES tokens = none) :
    ∀ fuel, stripSuffixTokens fuel tokens = tokens := by
  intro fuel
  cases fuel with
  | zero => rfl
  | succ n =>
    unfold stripSuffixTokens
    by_cases he : tokens = ([] : List (List Char))
    · rw [if_pos he]
    · rw [if_neg he, h]

lemma stripSuffixTokens_stuck :
    ∀ (fuel : ℕ) (tokens : List (List Char)), tokens.length ≤ fuel →
      stripOnceWith _ASSIGNEE_SUFFIXES (stripSuffixTokens fuel tokens) = none := by
  intro fuel
  induction fuel with
  | zero =>
    intro tokens hlen
    have : tokens = [] := by
      cases tokens with
      | nil => rfl
      | cons a b => simp at hlen
    subst this
    exact stripOnceWith_nil_tokens _
  | succ n ih =>
    intro tokens hlen
    unfold stripSuffixTokens
    by_cases he : tokens = ([] : List (List Char))
    · rw [if_pos he, he]
      exact stripOnceWith_nil_tokens _
    · rw [if_neg he]
      cases hstrip : stripOnceWith _ASSIGNEE_SUFFIXES tokens with
      | none => exact hstrip
      | some t =>
        have := stripOnceWith_length hstrip
        exact ih t (by omega)

lemma canonTokens_good {s : String} :
    ∀ w ∈ canonTokens s, w ≠ [] ∧ ∀ c ∈ w, goodChar c := by
  have hbase : ∀ w ∈ splitWords (s.data.map cleanChar), w ≠ [] ∧ ∀ c ∈ w, goodChar c := by
    intro w hw
    obtain ⟨hne, hmem⟩ := splitWords_mem_word hw
    refine ⟨hne, fun c hc => ?_⟩
    obtain ⟨hcs, hcl⟩ := hmem c hc
    obtain ⟨c0, _, hc0⟩ := List.mem_map.mp hcl
    exact goodChar_cleanChar hc0 hcs
  have hns : ∀ w ∈ splitWords (s.data.map cleanChar), w ≠ [] ∧ ∀ c ∈ w, c ≠ ' ' := by
    intro w hw
    obtain ⟨hne, hmem⟩ := hbase w hw
    exact ⟨hne, fun c hc => goodChar_ne_space (hmem c hc)⟩
  intro w hw
  unfold canonTokens _remove_punct_and_collapse at hw
  rw [show (String.mk (joinWords (splitWords (s.data.map cleanChar)))).data =
      joinWords (splitWords (s.data.map cleanChar)) from rfl,
    splitWords_joinWords hns] at hw
  exact hbase w hw

lemma dropWhile_eq_self_of_head {p : Char → Bool} {l : List Char}
    (h : ∀ c, l.head? = some c → p c = false) : l.dropWhile p = l := by
  cases l with
  | nil => rfl
  | cons a t =>
    rw [List.dropWhile_cons, h a rfl]
    simp

lemma pyStrip_joinWords_good {ws : List (List Char)}
    (hg : ∀ w ∈ ws, w ≠ [] ∧ ∀ c ∈ w, goodChar c) :
    pyStrip (joinWords ws) = joinWords ws := by
  cases hws : ws with
  | nil => rfl
  | cons w ws' =>
    subst hws
    obtain ⟨hwne, hwg⟩ := hg w (List.mem_cons_self w ws')
    unfold pyStrip
    have hhead : ∀ c, (joinWords (w :: ws')).head? = some c → c.isWhitespace = false := by
      intro c hc
      rw [joinWords_head? hwne] at hc
      have : c ∈ w := by
        cases w with
        | nil => exact absurd rfl hwne
        | cons a t =>
          rw [show (a :: t).head? = some a from rfl] at hc
          injection hc with hc
          rw [← hc]
          exact List.mem_cons_self a t
      exact goodChar_not_whitespace (hwg c this)
    rw [dropWhile_eq_self_of_head hhead]
    have hlast : ∀ c, (joinWords (w :: ws')).reverse.head? = some c → c.isWhitespace = false := by
      intro c hc
      rw [List.head?_reverse] at hc
      obtain ⟨wl, hwl⟩ : ∃ wl, List.getLast? (w :: ws') = some wl := by
        cases hl : List.getLast? (w :: ws') with
        | none =>
          rw [List.getLast?_eq_none_iff] at hl
          simp at hl
        | some u => exact ⟨u, rfl⟩
      have hwlmem : wl ∈ w :: ws' := List.mem_of_getLast?_eq_some hwl
      rw [joinWords_getLast? (fun v hv => (hg v hv).1) hwl] at hc
      have : c ∈ wl := List.mem_of_getLast?_eq_some hc
      exact goodChar_not_whitespace ((hg wl hwlmem).2 c this)
    rw [dropWhile_eq_self_of_head hlast, List.reverse_reverse]

lemma map_cleanChar_joinWords_good {ws : List (List Char)}
    (hg : ∀ w ∈ ws, w ≠ [] ∧ ∀ c ∈ w, goodChar c) :
    (joinWords ws).map cleanChar = joinWords ws := by
  have : ∀ c ∈ joinWords ws, cleanChar c = c := by
    intro c hc
    rcases mem_joinWords hc with h | ⟨w, hw, hcw⟩
    · rw [h]; exact cleanChar_space
    · exact goodChar_cleanChar_self ((hg w hw).2 c hcw)
  calc (joinWords ws).map cleanChar = (joinWords ws).map id := List.map_congr_left this
    _ = joinWords ws := List.map_id _

lemma canonTokens_of_good {ws : List (List Char)}
    (hg : ∀ w ∈ ws, w ≠ [] ∧ ∀ c ∈ w, goodChar c) :
    canonTokens (String.mk (pyStrip (joinWords ws))) = ws := by
  rw [pyStrip_joinWords_good hg]
  unfold canonTokens _remove_punct_and_collapse
  rw [show (String.mk (joinWords ws)).data = joinWords ws from rfl,
    map_cleanChar_joinWords_good hg]
  have hns : ∀ w ∈ ws, w ≠ [] ∧ ∀ c ∈ w, c ≠ ' ' := by
    intro w hw
    obtain ⟨hne, hmem⟩ := hg w hw
    exact ⟨hne, fun c hc => goodChar_ne_space (hmem c hc)⟩
  rw [show (String.mk (joinWords (splitWords (joinWords ws)))).data =
      joinWords (splitWords (joinWords ws)) from rfl]
  rw [splitWords_joinWords hns, splitWords_joinWords hns]

/-- Claim C9 — assignee canonicalization is idempotent:
`_canonicalize_assignee_for_lookup (_canonicalize_assignee_for_lookup x) =
_canonicalize_assignee_for_lookup x` for every input string `x`. -/
theorem canonicalize_assignee_idempotent (x : String) :
    _canonicalize_assignee_for_lookup (_canonicalize_assignee_for_lookup x) =
      _canonicalize_assignee_for_lookup x := by
  unfold _canonicalize_assignee_for_lookup
  by_cases hx : x = ""
  · rw [if_pos hx, if_pos rfl]
  · rw [if_neg hx]
    by_cases htk : canonTokens x = []
    · rw [if_pos htk, if_pos rfl]
    · rw [if_neg htk]
      set res := stripSuffixTokens (canonTokens x).length (canonTokens x) with hres
      have hgood : ∀ w ∈ res, w ≠ [] ∧ ∀ c ∈ w, goodChar c := by
        intro w hw
        exact canonTokens_good w (stripSuffixTokens_subset _ _ w hw)
      by_cases hrnil : res = []
      · rw [hrnil]
        rw [show String.mk (pyStrip (joinWords [])) = "" from rfl, if_pos rfl]
      · have hout : String.mk (pyStrip (joinWords res)) ≠ "" := by
          intro he
          have hdata : pyStrip (joinWords res) = [] := congrArg String.data he
          rw [pyStrip_joinWords_good hgood] at hdata
          exact joinWords_ne_nil hrnil (fun w hw => (hgood w hw).1) hdata
        rw [if_neg hout]
        have hct : canonTokens (String.mk (pyStrip (joinWords res))) = res :=
          canonTokens_of_good hgood
        rw [hct, if_neg hrnil]
        have hstuck : stripOnceWith _ASSIGNEE_SUFFIXES res = none :=
          stripSuffixTokens_stuck _ _ (le_refl _)
        rw [stripSuffixTokens_of_none hstuck _]

/-- Claim C8 (counterexample) — canonicalizing the assignee query
"Acme Corp., Inc." does not yield "ACME CORP": the suffix loop keeps
stripping, so "CORP" is removed as well. -/
theorem acme_canonicalization_counterexample :
    _canonicalize_assignee_for_lookup "Acme Corp., Inc." ≠ "ACME CORP" := by decide

/-- Claim C8 (amended) — canonicalizing "Acme Corp., Inc." yields "ACME":
the suffix tokens "INC" and "CORP" are both stripped (on successive passes
of the longest-match-first suffix loop), which also removes "CORP". -/
theorem acme_canonicalization_amended :
    _canonicalize_assignee_for_lookup "Acme Corp., Inc." = "ACME" := by decide

/-! ### Per-cluster momentum (`neighbor_momentum` in `whitespace_api.py`)

The arithmetic lives in the SQL the function issues: the CTE `d` joins the
labelled nodes with the `patent` table, `cutoff` is `MAX(pub_date) - 90`, and
`m` takes `GREATEST(0.0, SUM(CASE WHEN pub_date >= c THEN 1.0 ELSE -0.25 END))`
per `cluster_id`; the Python tail packs the sums into a dense array indexed by
cluster id and divides by the maximum when it is positive.  A row models one
element of `d`: a node's cluster id and its (possibly NULL) publication date
as an integer day number.  In SQL, a NULL `pub_date` compares as NULL, so the
CASE takes the `-0.25` branch; `MAX(pub_date)` ignores NULLs and is NULL when
every date is NULL, in which case the comparison is again never true. -/

structure MomRow where
  cluster_id : ℕ
  pub_date : Option ℤ
  deriving DecidableEq

/-- `cutoff AS (SELECT (MAX(pub_date) - 90) AS c FROM d)`. -/
def momentumCutoff (rows : List MomRow) : Option ℤ :=
  ((rows.filterMap MomRow.pub_date).max?).map (fun m => m - 90)

/-- `CASE WHEN pub_date >= c THEN 1.0 ELSE -0.25 END` (NULL-propagating
comparison: a NULL date or cutoff falls to the ELSE branch). -/
def momentumContrib (cutoff : Option ℤ) (d : Option ℤ) : ℚ :=
  match cutoff, d with
  | some c, some dd => if c ≤ dd then 1 else -(1/4)
  | _, _ => -(1/4)

/-- `GREATEST(0.0, SUM(...)) ... GROUP BY cluster_id`; a cluster with no rows
has an empty sum, matching the zero initialization of the Python array. -/
def clusterRawMomentum (rows : List MomRow) (cid : ℕ) : ℚ :=
  max 0 (((rows.filter (fun r => decide (r.cluster_id = cid))).map
    (fun r => momentumContrib (momentumCutoff rows) r.pub_date)).sum)

/-- `neighbor_momentum`: dense array by cluster id, normalized by the global
maximum when positive.  `labels` only feeds the `np.zeros(labels.max()+1)`
fallback used when the query returns no rows. -/
def neighbor_momentum (rows : List MomRow) (labels : List ℕ) : List ℚ :=
  if rows = [] then List.replicate (labels.foldr max 0 + 1) 0
  else
    let maxCid := (rows.map MomRow.cluster_id).foldr max 0
    let arr := (List.range (maxCid + 1)).map (fun cid => clusterRawMomentum rows cid)
    let mmax := arr.foldr max 0
    if 0 < mmax then arr.map (fun v => v / mmax) else arr

lemma foldr_max_nonneg (l : List ℚ) : 0 ≤ l.foldr max 0 := by
  induction l with
  | nil => simp
  | cons a t ih => exact le_trans ih (le_max_right a _)

lemma le_foldr_max {l : List ℚ} {x : ℚ} (hx : x ∈ l) : x ≤ l.foldr max 0 := by
  induction l with
  | nil => simp at hx
  | cons a t ih =>
    rcases List.mem_cons.mp hx with h | h
    · rw [h]; exact le_max_left a _
    · exact le_trans (ih h) (le_max_right a _)

lemma sum_nonpos_of_mem_nonpos {l : List ℚ} (h : ∀ x ∈ l, x ≤ 0) : l.sum ≤ 0 := by
  induction l with
  | nil => simp
  | cons a t ih =>
    rw [List.sum_cons]
    have ha := h a (List.mem_cons_self a t)
    have ht := ih (fun x hx => h x (List.mem_cons_of_mem a hx))
    linarith

lemma clusterRawMomentum_nonneg (rows : List MomRow) (cid : ℕ) :
    0 ≤ clusterRawMomentum rows cid := le_max_left 0 _

lemma getD_map_range {f : ℕ → ℚ} {n cid : ℕ} :
    ((List.range n).map f).getD cid 0 = if cid < n then f cid else 0 := by
  by_cases h : cid < n
  · rw [if_pos h, List.getD_eq_getElem _ _ (by simpa using h)]
    simp
  · rw [if_neg h, List.getD_eq_default _ _ (by simpa using h)]

lemma getD_map_div {l : List ℚ} {m : ℚ} {cid : ℕ} :
    (l.map (fun v => v / m)).getD cid 0 = l.getD cid 0 / m := by
  by_cases h : cid < l.length
  · rw [List.getD_eq_getElem _ _ (by simpa using h), List.getD_eq_getElem _ _ h,
      List.getElem_map]
  · rw [List.getD_eq_default _ _ (by simp; omega), List.getD_eq_default _ _ (by omega)]
    norm_num

lemma clusterRawMomentum_eq_zero_of_undated {rows : List MomRow} {cid : ℕ}
    (h : ∀ r ∈ rows, r.cluster_id = cid → r.pub_date = none) :
    clusterRawMomentum rows cid = 0 := by
  unfold clusterRawMomentum
  have hsum : (((rows.filter (fun r => decide (r.cluster_id = cid))).map
      (fun r => momentumContrib (momentumCutoff rows) r.pub_date)).sum) ≤ 0 := by
    apply sum_nonpos_of_mem_nonpos
    intro x hx
    obtain ⟨r, hr, hxr⟩ := List.mem_map.mp hx
    have hrc : r.cluster_id = cid := by
      have := List.of_mem_filter hr
      exact of_decide_eq_true this
    have hnone : r.pub_date = none := h r (List.mem_of_mem_filter hr) hrc
    rw [hnone] at hxr
    subst hxr
    cases momentumCutoff rows with
    | none => norm_num [momentumContrib]
    | some c => norm_num [momentumContrib]
  exact max_eq_left hsum

/-- Claim C4 — per-cluster momentum: every value of the returned array lies
in `[0, 1]` (the per-cluster sum is floored at 0 and divided by the global
maximum when positive), and a cluster with no dated rows — all its joined
rows have a NULL date, or it has no rows at all — gets momentum exactly 0. -/
theorem neighbor_momentum_bounds (rows : List MomRow) (labels : List ℕ) :
    (∀ v ∈ neighbor_momentum rows labels, 0 ≤ v ∧ v ≤ 1) ∧
    (∀ cid : ℕ, (∀ r ∈ rows, r.cluster_id = cid → r.pub_date = none) →
      (neighbor_momentum rows labels).getD cid 0 = 0) := by
  unfold neighbor_momentum
  by_cases hrows : rows = []
  · rw [if_pos hrows]
    constructor
    · intro v hv
      have := List.eq_of_mem_replicate hv
      rw [this]
      norm_num
    · intro cid _
      by_cases hlt : cid < (List.replicate (labels.foldr max 0 + 1) (0:ℚ)).length
      · rw [List.getD_eq_getElem _ _ hlt]
        simp
      · rw [List.getD_eq_default _ _ (by omega)]
  · rw [if_neg hrows]
    set maxCid := (rows.map MomRow.cluster_id).foldr max 0 with hmaxCid
    set arr := (List.range (maxCid + 1)).map (fun cid => clusterRawMomentum rows cid) with harr
    set mmax := arr.foldr max 0 with hmmax
    have harr_nonneg : ∀ v ∈ arr, 0 ≤ v := by
      intro v hv
      obtain ⟨cid, _, hvc⟩ := List.mem_map.mp hv
      rw [← hvc]
      exact clusterRawMomentum_nonneg rows cid
    have harr_le : ∀ v ∈ arr, v ≤ mmax := fun v hv => le_foldr_max hv
    constructor
    · intro v hv
      by_cases hpos : 0 < mmax
      · rw [if_pos hpos] at hv
        obtain ⟨u, hu, huv⟩ := List.mem_map.mp hv
        rw [← huv]
        constructor
        · exact div_nonneg (harr_nonneg u hu) (le_of_lt hpos)
        · exact (div_le_one hpos).mpr (harr_le u hu)
      · rw [if_neg hpos] at hv
        have h0 : v = 0 := le_antisymm (by
            have := harr_le v hv
            have : mmax ≤ 0 := le_of_not_lt hpos
            linarith [harr_le v hv]) (harr_nonneg v hv)
        rw [h0]
        norm_num
    · intro cid hnd
      have hzero : clusterRawMomentum rows cid = 0 := clusterRawMomentum_eq_zero_of_undated hnd
      by_cases hpos : 0 < mmax
      · rw [if_pos hpos, getD_map_div, getD_map_range]
        by_cases hin : cid < maxCid + 1
        · rw [if_pos hin, hzero, zero_div]
        · rw [if_neg hin, zero_div]
      · rw [if_neg hpos, getD_map_range]
        by_cases hin : cid < maxCid + 1
        · rw [if_pos hin, hzero]
        · rw [if_neg hin]

/-- Witness for claim C4 at a concrete input: two rows, cluster 0 dated on
day 100 (after the cutoff 10), cluster 1 undated. -/
theorem neighbor_momentum_bounds_witness :
    (0 ≤ (neighbor_momentum [⟨0, some 100⟩, ⟨1, none⟩] [0, 1]).getD 0 0 ∧
      (neighbor_momentum [⟨0, some 100⟩, ⟨1, none⟩] [0, 1]).getD 0 0 ≤ 1) ∧
    (neighbor_momentum [⟨0, some 100⟩, ⟨1, none⟩] [0, 1]).getD 1 0 = 0 := by
  have hm : neighbor_momentum [⟨0, some 100⟩, ⟨1, none⟩] [0, 1] = [1, 0] := by
    have h0 : clusterRawMomentum [⟨0, some 100⟩, ⟨1, none⟩] 0 = 1 := by
      norm_num [clusterRawMomentum, momentumCutoff, momentumContrib, List.max?,
        List.filterMap_cons, List.filterMap_nil, List.filter_cons, List.filter_nil]
    have h1 : clusterRawMomentum [⟨0, some 100⟩, ⟨1, none⟩] 1 = 0 := by
      norm_num [clusterRawMomentum, momentumCutoff, momentumContrib, List.max?,
        List.filterMap_cons, List.filterMap_nil, List.filter_cons, List.filter_nil]
    rw [neighbor_momentum, if_neg (by simp)]
    norm_num [List.range_succ, h0, h1]
  refine ⟨(neighbor_momentum_bounds [⟨0, some 100⟩, ⟨1, none⟩] [0, 1]).1 _ ?_,
    (neighbor_momentum_bounds [⟨0, some 100⟩, ⟨1, none⟩] [0, 1]).2 1 (by decide)⟩
  rw [hm]
  simp

/-! ### Signal computations (`whitespace_signals.py`)

Python floats become `ℝ` (exact real arithmetic; `numpy` float64 rounding is
not modelled).  `np.linalg.lstsq` on the design matrix `[x, 1]` with the
centred-and-scaled `x` (whose entries sum to zero exactly) returns the least
squares solution, whose normal equations are diagonal: the slope is
`Σ x·y / Σ x²` and the intercept is `mean y`; `slope_conf` embeds that closed
form.  `np.clip(x, lo, hi)` is `min (max x lo) hi`. -/

noncomputable def npClip (x lo hi : ℝ) : ℝ := min (max x lo) hi

/-- Outcome of evaluating a single signal rule (`SignalComputation`). -/
structure SignalComputation where
  ok : Bool
  confidence : ℝ
  message : String
  debug : List (String × ℝ)

/-- `SignalComputation.status`: map the confidence value to a discrete
status bucket. -/
noncomputable def SignalComputation.status (s : SignalComputation) : String :=
  if ¬ (s.ok = true) ∨ s.confidence ≤ 0 then "none"
  else if 0.66 ≤ s.confidence then "strong"
  else if 0.33 ≤ s.confidence then "medium"
  else "weak"

/-- `slope_conf`: slope and t-statistic confidence proxy of a series against
centred, variance-scaled positions `x`. -/
noncomputable def slope_conf (series : List ℝ) : ℝ × ℝ :=
  if series.length < 2 then (0, 0)
  else
    let n : ℝ := series.length
    let xs : List ℝ := (List.range series.length).map (fun i => (i : ℝ))
    let xm : ℝ := xs.sum / n
    let std : ℝ := Real.sqrt ((xs.map (fun v => (v - xm) ^ 2)).sum / n)
    let xz : List ℝ := xs.map (fun v => (v - xm) / (std + 1e-9))
    let sxx : ℝ := (xz.map (fun v => v ^ 2)).sum
    let sxy : ℝ := ((xz.zip series).map (fun p => p.1 * p.2)).sum
    let slope : ℝ := sxy / sxx
    let intercept : ℝ := series.sum / n
    let resid : List ℝ := (xz.zip series).map (fun p => p.2 - (slope * p.1 + intercept))
    let rstd : ℝ := Real.sqrt ((resid.map (fun v => v ^ 2)).sum / n)
    let se : ℝ := (rstd + 1e-9) / Real.sqrt sxx
    (slope, |slope / se|)

/-- `pct_rank`: percentile rank of `value` relative to `ref`
(`np.sum(arr <= value) / max(1, len(arr))`). -/
noncomputable def pct_rank (value : ℝ) (ref : List ℝ) : ℝ :=
  if ref = [] then 0
  else ((ref.map (fun r => if r ≤ value then (1 : ℝ) else 0)).sum) / ((max 1 ref.length : ℕ) : ℝ)

/-- `trend_votes = int(dist_up) + int(share_up)` in `signal_focus_shift`. -/
noncomputable def focus_shift_trend_votes (dist_series share_series : List ℝ) : ℕ :=
  (if 0 < (slope_conf (dist_series.map (fun d => -d))).1 then 1 else 0) +
    (if 0 < (slope_conf share_series).1 then 1 else 0)

/-- `ok = (trend_votes >= 1) and soft_dist and soft_share` in
`signal_focus_shift`. -/
noncomputable def focus_shift_ok (dist_series share_series : List ℝ) : Bool :=
  decide (1 ≤ focus_shift_trend_votes dist_series share_series) &&
    decide (-0.02 < (slope_conf (dist_series.map (fun d => -d))).1) &&
    decide (-0.02 < (slope_conf share_series).1)

/-- The confidence of `signal_focus_shift` before the partial-convergence
discount and the clip:
`min(1.0, 0.5 * (max(0.0, t_dist) + max(0.0, t_share))) * min(1.0, n_samples / 40.0)`. -/
noncomputable def focus_shift_base_conf (dist_series share_series : List ℝ) (n_samples : ℕ) : ℝ :=
  min 1 (0.5 * (max 0 (slope_conf (dist_series.map (fun d => -d))).2 +
      max 0 (slope_conf share_series).2)) *
    min 1 ((n_samples : ℝ) / 40)

/-- `signal_focus_shift`: detect whether filings are converging toward the
keyword focus. -/
noncomputable def signal_focus_shift (dist_series share_series : List ℝ)
    (n_samples : ℕ) : SignalComputation :=
  if dist_series.length < 3 ∨ share_series.length < 3 ∨ n_samples < 4 then
    ⟨false, 0, "Not enough recent filings to judge movement toward the focus.",
      [("samples", (n_samples : ℝ))]⟩
  else
    let sd := slope_conf (dist_series.map (fun d => -d))
    let ss := slope_conf share_series
    let trend_votes := focus_shift_trend_votes dist_series share_series
    let ok := focus_shift_ok dist_series share_series
    let conf0 := focus_shift_base_conf dist_series share_series n_samples
    let conf1 := if trend_votes = 1 then conf0 * 0.6 else conf0
    let conf2 := npClip conf1 0 1
    let conf := if ok then conf2 else 0
    let message :=
      if ok = false then
        "The assignee's latest patent filings stay anchored in prior themes; no sustained convergence toward the selected keywords is visible."
      else if trend_votes = 1 then
        "The assignee has begun converging patent filings toward the selected keywords, but the change remains uneven across volume and location."
      else
        "The assignee's recent patent filings converge around the selected keywords and now make up a growing share of their portfolio."
    ⟨ok, conf, message,
      [("slope_dist", sd.1), ("slope_share", ss.1), ("t_dist", sd.2), ("t_share", ss.2),
        ("samples", (n_samples : ℝ)), ("trend_votes", (trend_votes : ℝ)),
        ("soft_dist", if -0.02 < sd.1 then 1 else 0), ("soft_share", if -0.02 < ss.1 then 1 else 0)]⟩

/-- `signal_emerging_gap`: flag when the assignee sits in a sparse pocket
with rising nearby activity. -/
noncomputable def signal_emerging_gap (whitespace_series cohort_scores : List ℝ)
    (neighbor_momentum : ℝ) : SignalComputation :=
  if whitespace_series = [] then
    ⟨false, 0, "No whitespace scores available for this scope.",
      [("momentum", neighbor_momentum)]⟩
  else
    let current_score := (whitespace_series.getLast?).getD 0
    let percentile := pct_rank current_score cohort_scores
    let strong_sparse : Bool := decide (0.95 ≤ percentile)
    let heated_neighbors : Bool := decide (0.2 < neighbor_momentum)
    let ok : Bool := (decide (0.85 ≤ percentile) && heated_neighbors) || strong_sparse
    let conf0 := npClip (0.55 * percentile + 0.45 * max 0 neighbor_momentum) 0 1
    let conf1 := if ok && !heated_neighbors then conf0 * 0.75 else conf0
    let conf := if ok then conf1 else 0
    let message :=
      if ok = false then
        "The assignee's latest filings land in technology areas that other applicants already cover; no open pocket of whitespace is emerging near this focus."
      else if heated_neighbors then
        "The assignee is filing into a lightly contested pocket near the focus while neighboring applicants accelerate, signalling a chance to establish a lead before the area fills."
      else
        "The assignee is filing into a lightly contested pocket near the focus, but neighboring applicants are only inching forward, so the window may stay open longer."
    ⟨ok, conf, message,
      [("current_score", current_score), ("percentile", percentile),
        ("neighbor_momentum", neighbor_momentum),
        ("strong_sparse", if strong_sparse then 1 else 0),
        ("heated_neighbors", if heated_neighbors then 1 else 0)]⟩

/-- Stable insertion into a sorted list, used to model Python's stable
ascending sorts and `np.sort`. -/
noncomputable def insertSorted (x : ℝ) : List ℝ → List ℝ
  | [] => [x]
  | y :: t => if y ≤ x then y :: insertSorted x t else x :: y :: t

/-- Ascending sort of real values (insertion sort; stable, like `sorted`). -/
noncomputable def sortReal (l : List ℝ) : List ℝ :=
  l.foldl (fun acc x => insertSorted x acc) []

/-- `np.quantile(a, q)` with the default linear interpolation: position
`h = q*(n-1)` in the sorted data, result `s[⌊h⌋] + (h-⌊h⌋)·(s[⌊h⌋+1]-s[⌊h⌋])`
with the upper index clamped to `n-1`.  (numpy raises on an empty array; the
callers only reach it with at least two elements.) -/
noncomputable def npQuantile (l : List ℝ) (q : ℝ) : ℝ :=
  if l = [] then 0
  else
    let s := sortReal l
    let n := s.length
    let h : ℝ := q * ((n : ℝ) - 1)
    let i : ℕ := (⌊h⌋).toNat
    let lo := s.getD i 0
    let hi := s.getD (min (i + 1) (n - 1)) 0
    lo + (h - (⌊h⌋ : ℝ)) * (hi - lo)

/-- `signal_crowd_out`: warn when whitespace is collapsing and density is
rising. -/
noncomputable def signal_crowd_out (whitespace_series density_series : List ℝ) :
    SignalComputation :=
  if whitespace_series.length < 2 ∨ density_series.length < 2 then
    ⟨false, 0, "Insufficient history to spot a crowd-out trend.", []⟩
  else
    let sw := slope_conf whitespace_series
    let sd := slope_conf density_series
    let slope_ws := sw.1
    let t_ws := sw.2
    let slope_den := sd.1
    let t_den := sd.2
    let recent_ws := (whitespace_series.getLast?).getD 0
    let start_ws := (whitespace_series.head?).getD 0
    let recent_density := (density_series.getLast?).getD 0
    let start_density := (density_series.head?).getD 0
    let ws_decline : Bool := decide (slope_ws < -0.002) || decide (recent_ws < start_ws - 0.05)
    let density_gain : Bool := decide (0.002 < slope_den) || decide (start_density + 0.05 < recent_density)
    let crowded_now : Bool := decide (recent_ws ≤ npQuantile whitespace_series 0.35) &&
      decide (npQuantile density_series 0.65 ≤ recent_density)
    let ok : Bool := (ws_decline && density_gain) ||
      (crowded_now && (density_gain || decide (-0.001 ≤ slope_den)))
    let conf0 := min 1 (0.45 * (max 0 t_den + max 0 |t_ws|))
    let conf1 := if !(ws_decline && density_gain) && ok then conf0 * 0.7 else conf0
    let conf2 := npClip conf1 0 1
    let conf := if ok then conf2 else 0
    let message :=
      if ok = false then
        "Recent competitor filings still leave breathing room around the selected focus; no material crowd-out pressure is showing up."
      else if ws_decline && density_gain then
        "Competitors are filing aggressively around the selected focus, shrinking available whitespace and concentrating coverage."
      else
        "Competitor filings remain stacked around an already tight focus area, keeping steady pressure on the remaining whitespace."
    ⟨ok, conf, message,
      [("slope_ws", slope_ws), ("slope_density", slope_den), ("t_ws", t_ws),
        ("t_density", t_den), ("ws_decline", if ws_decline then 1 else 0),
        ("density_gain", if density_gain then 1 else 0),
        ("crowded_now", if crowded_now then 1 else 0),
        ("recent_ws", recent_ws), ("recent_density", recent_density)]⟩

/-- `signal_bridge`: spot adjacencies between two rising clusters with
little coverage. -/
noncomputable def signal_bridge (openness inter_weight mom_left mom_right : ℝ) :
    SignalComputation :=
  let shared_growth : Bool := decide (0.2 ≤ min mom_left mom_right)
  let avg_growth := (mom_left + mom_right) / 2
  let balanced_growth : Bool := shared_growth ||
    (decide (0.45 ≤ avg_growth) && decide (0.15 ≤ min mom_left mom_right))
  let ok : Bool := decide (openness ≤ 0.35) && decide (0.5 ≤ inter_weight) && balanced_growth
  let conf0 := npClip (min mom_left mom_right * inter_weight) 0 1
  let conf1 := if ok && !shared_growth then conf0 * 0.85 else conf0
  let conf := if ok then conf1 else 0
  let message :=
    if ok = false then
      "Recent filings do not reveal a clear linking opportunity between neighboring technology areas near the focus."
    else if shared_growth then
      "Neighboring technology areas near the focus are both accelerating in patent filings while the space between them stays thin, signalling a bridge opportunity."
    else
      "At least one neighboring technology area is ramping patent filings while the gap between topics remains under-served, suggesting a bridge opportunity to connect them."
  ⟨ok, conf, message,
    [("openness", openness), ("inter_weight", inter_weight),
      ("momentum_left", mom_left), ("momentum_right", mom_right),
      ("balanced_growth", if balanced_growth then 1 else 0),
      ("shared_growth", if shared_growth then 1 else 0)]⟩

/-- Claim C5 — `SignalComputation.status` is a pure function of
`(ok, confidence)`: "none" when `ok` is false or `confidence ≤ 0`, "weak" for
`0 < confidence < 0.33`, "medium" for `0.33 ≤ confidence < 0.66`, "strong"
for `confidence ≥ 0.66`. -/
theorem status_bucketing (ok : Bool) (conf : ℝ) (msg : String) (dbg : List (String × ℝ)) :
    ((ok = false ∨ conf ≤ 0) →
      (SignalComputation.mk ok conf msg dbg).status = "none") ∧
    (ok = true → 0 < conf → conf < 0.33 →
      (SignalComputation.mk ok conf msg dbg).status = "weak") ∧
    (ok = true → 0.33 ≤ conf → conf < 0.66 →
      (SignalComputation.mk ok conf msg dbg).status = "medium") ∧
    (ok = true → 0.66 ≤ conf →
      (SignalComputation.mk ok conf msg dbg).status = "strong") := by
  unfold SignalComputation.status
  refine ⟨?_, ?_, ?_, ?_⟩
  · intro h
    rcases h with h | h
    · rw [if_pos (Or.inl (by simp [h]))]
    · rw [if_pos (Or.inr h)]
  · intro hok hpos hlt
    rw [if_neg (by push_neg; exact ⟨by simp [hok], by linarith⟩),
      if_neg (by norm_num; linarith), if_neg (by norm_num; linarith)]
  · intro hok hge hlt
    rw [if_neg (by push_neg; exact ⟨by simp [hok], by linarith⟩),
      if_neg (by norm_num; linarith), if_pos (by linarith)]
  · intro hok hge
    rw [if_neg (by push_neg; exact ⟨by simp [hok], by linarith⟩),
      if_pos (by linarith)]

/-- Witness for claim C5 at the boundary confidences 0.329, 0.33, 0.659 and
0.66 with `ok = true`. -/
theorem status_bucketing_witness :
    (SignalComputation.mk true 0.329 "" []).status = "weak" ∧
    (SignalComputation.mk true 0.33 "" []).status = "medium" ∧
    (SignalComputation.mk true 0.659 "" []).status = "medium" ∧
    (SignalComputation.mk true 0.66 "" []).status = "strong" :=
  ⟨(status_bucketing true 0.329 "" []).2.1 rfl (by norm_num) (by norm_num),
    (status_bucketing true 0.33 "" []).2.2.1 rfl (by norm_num) (by norm_num),
    (status_bucketing true 0.659 "" []).2.2.1 rfl (by norm_num) (by norm_num),
    (status_bucketing true 0.66 "" []).2.2.2 rfl (by norm_num)⟩

/-- Claim C2 — each of the four signal detectors returns confidence 0
whenever its `ok` flag is false; none ever returns positive confidence with
`ok = false`. -/
theorem signal_ok_false_confidence_zero :
    (∀ (d s : List ℝ) (n : ℕ), (signal_focus_shift d s n).ok = false →
      (signal_focus_shift d s n).confidence = 0) ∧
    (∀ (ws cs : List ℝ) (m : ℝ), (signal_emerging_gap ws cs m).ok = false →
      (signal_emerging_gap ws cs m).confidence = 0) ∧
    (∀ (ws ds : List ℝ), (signal_crowd_out ws ds).ok = false →
      (signal_crowd_out ws ds).confidence = 0) ∧
    (∀ (o iw ml mr : ℝ), (signal_bridge o iw ml mr).ok = false →
      (signal_bridge o iw ml mr).confidence = 0) := by
  refine ⟨?_, ?_, ?_, ?_⟩
  · intro d s n h
    unfold signal_focus_shift at h ⊢
    by_cases hg : d.length < 3 ∨ s.length < 3 ∨ n < 4
    · rw [if_pos hg]
    · rw [if_neg hg] at h ⊢
      simp only at h ⊢
      rw [h]
      simp
  · intro ws cs m h
    unfold signal_emerging_gap at h ⊢
    by_cases hg : ws = []
    · rw [if_pos hg]
    · rw [if_neg hg] at h ⊢
      simp only at h ⊢
      rw [h]
      simp
  · intro ws ds h
    unfold signal_crowd_out at h ⊢
    by_cases hg : ws.length < 2 ∨ ds.length < 2
    · rw [if_pos hg]
    · rw [if_neg hg] at h ⊢
      simp only at h ⊢
      rw [h]
      simp
  · intro o iw ml mr h
    unfold signal_bridge at h ⊢
    simp only at h ⊢
    rw [h]
    simp

/-- Witness for claim C2: each detector evaluated at a concrete input where
it reports `ok = false`. -/
theorem signal_ok_false_confidence_zero_witness :
    ((signal_focus_shift [] [] 0).ok = false ∧ (signal_focus_shift [] [] 0).confidence = 0) ∧
    ((signal_emerging_gap [] [] 0).ok = false ∧ (signal_emerging_gap [] [] 0).confidence = 0) ∧
    ((signal_crowd_out [] []).ok = false ∧ (signal_crowd_out [] []).confidence = 0) ∧
    ((signal_bridge 1 0 0 0).ok = false ∧ (signal_bridge 1 0 0 0).confidence = 0) := by
  have h1 : (signal_focus_shift [] [] 0).ok = false := by
    unfold signal_focus_shift
    rw [if_pos (by norm_num)]
  have h2 : (signal_emerging_gap [] [] 0).ok = false := by
    unfold signal_emerging_gap
    rw [if_pos rfl]
  have h3 : (signal_crowd_out [] []).ok = false := by
    unfold signal_crowd_out
    rw [if_pos (by norm_num)]
  have h4 : (signal_bridge 1 0 0 0).ok = false := by
    unfold signal_bridge
    simp only
    rw [Bool.and_eq_false_iff]
    left
    rw [Bool.and_eq_false_iff]
    left
    rw [decide_eq_false_iff_not]
    norm_num
  exact ⟨⟨h1, signal_ok_false_confidence_zero.1 [] [] 0 h1⟩,
    ⟨h2, (signal_ok_false_confidence_zero.2.1) [] [] 0 h2⟩,
    ⟨h3, (signal_ok_false_confidence_zero.2.2.1) [] [] h3⟩,
    ⟨h4, (signal_ok_false_confidence_zero.2.2.2) 1 0 0 0 h4⟩⟩

/-- Claim C6 — for every non-empty whitespace series, `signal_emerging_gap`
reports `ok = true` exactly when the percentile rank of the latest score in
the cohort is at least 0.85 with neighbor momentum above 0.2, or the
percentile rank is at least 0.95 regardless of momentum. -/
theorem emerging_gap_ok_iff (ws cs : List ℝ) (m : ℝ) (hne : ws ≠ []) :
    (signal_emerging_gap ws cs m).ok = true ↔
      ((0.85 ≤ pct_rank ((ws.getLast?).getD 0) cs ∧ 0.2 < m) ∨
        0.95 ≤ pct_rank ((ws.getLast?).getD 0) cs) := by
  unfold signal_emerging_gap
  rw [if_neg hne]
  simp only [Bool.or_eq_true, Bool.and_eq_true, decide_eq_true_iff]

/-- Witness for claim C6: a series whose latest score tops the cohort with
heated neighbors, so the detector reports `ok = true`. -/
theorem emerging_gap_ok_iff_witness : (signal_emerging_gap [1] [0] 1).ok = true :=
  (emerging_gap_ok_iff [1] [0] 1 (by simp)).mpr
    (Or.inl ⟨by norm_num [pct_rank], by norm_num⟩)

/-! ### Claim C7: the partial-convergence discount in `signal_focus_shift`

The code multiplies the confidence by `0.6` when `trend_votes == 1`, not by
`0.5`.  The concrete input below reaches that branch: the distance series
`[2, 1, 0]` is exactly linear (so the negated-distance slope is positive and
its t-statistic huge), the share series is constant (slope 0), and with 40
samples the base confidence saturates at 1. -/

lemma slope_conf_neg_dist_eval :
    slope_conf (([2, 1, 0] : List ℝ).map (fun d => -d)) =
      (Real.sqrt (2 / 3) + 1e-9, Real.sqrt 2 * 1e9) := by
  have hmap : (([2, 1, 0] : List ℝ).map (fun d => -d)) = [-2, -1, 0] := by norm_num
  rw [hmap]
  unfold slope_conf
  rw [if_neg (by norm_num)]
  have hrange : List.range 3 = [0, 1, 2] := by decide
  simp only [List.length_cons, List.length_nil, hrange, List.map_cons, List.map_nil,
    List.sum_cons, List.sum_nil, List.zip_cons_cons, List.zip_nil_right]
  norm_num
  set K : ℝ := Real.sqrt 2 / Real.sqrt 3 + 1 / 1000000000 with hK
  have h3pos : (0:ℝ) < Real.sqrt 3 := Real.sqrt_pos.mpr (by norm_num)
  have h2pos : (0:ℝ) < Real.sqrt 2 := Real.sqrt_pos.mpr (by norm_num)
  have hKpos : 0 < K := by rw [hK]; positivity
  have hKne : K ≠ 0 := ne_of_gt hKpos
  have hslope : -(-1 / K * 2) / ((-1 / K) ^ 2 + (K ^ 2)⁻¹) = K := by
    field_simp
    ring
  rw [hslope]
  constructor
  · rw [hK]
  · have e1 : (-2 : ℝ) - (K * (-1 / K) + -1) = 0 := by
      field_simp
      norm_num
    have e2 : (1 : ℝ) + -(K * K⁻¹) = 0 := by
      rw [mul_inv_cancel₀ hKne]; ring
    rw [e1, e2]
    have e3 : ((-1/K):ℝ)^2 + ((K:ℝ)^2)⁻¹ = 2 * (1/K)^2 := by
      field_simp
      ring
    rw [e3, Real.sqrt_mul (by norm_num : (0:ℝ) ≤ 2),
      Real.sqrt_sq (le_of_lt (one_div_pos.mpr hKpos))]
    norm_num [Real.sqrt_eq_zero]
    have hx : K / (1 / 1000000000 / (Real.sqrt 2 * K⁻¹)) = Real.sqrt 2 * 1000000000 := by
      field_simp
      ring
    rw [hx, abs_of_pos (by positivity)]

lemma slope_conf_share_eval :
    slope_conf [(0.5 : ℝ), 0.5, 0.5] = (0, 0) := by
  unfold slope_conf
  rw [if_neg (by norm_num)]
  have hrange : List.range 3 = [0, 1, 2] := by decide
  simp only [List.length_cons, List.length_nil, hrange, List.map_cons, List.map_nil,
    List.sum_cons, List.sum_nil, List.zip_cons_cons, List.zip_nil_right]
  norm_num
  set K : ℝ := Real.sqrt 2 / Real.sqrt 3 + 1 / 1000000000 with hK
  have hsxy : -1 / K * (1 / 2) + K⁻¹ * (1 / 2) = 0 := by ring
  exact ⟨Or.inl hsxy, Or.inl (Or.inl hsxy)⟩

lemma sqrt_twothirds_pos : (0:ℝ) < Real.sqrt (2 / 3) + 1e-9 := by positivity

lemma focus_shift_votes_eval :
    focus_shift_trend_votes [2, 1, 0] [0.5, 0.5, 0.5] = 1 := by
  unfold focus_shift_trend_votes
  rw [slope_conf_neg_dist_eval, slope_conf_share_eval]
  rw [if_pos sqrt_twothirds_pos, if_neg (by norm_num)]

lemma focus_shift_ok_eval :
    focus_shift_ok [2, 1, 0] [0.5, 0.5, 0.5] = true := by
  unfold focus_shift_ok
  rw [focus_shift_votes_eval, slope_conf_neg_dist_eval, slope_conf_share_eval]
  have h1 : (-0.02 : ℝ) < Real.sqrt (2 / 3) + 1e-9 := lt_trans (by norm_num) sqrt_twothirds_pos
  simp only [Bool.and_eq_true, decide_eq_true_eq]
  exact ⟨⟨le_refl 1, h1⟩, by norm_num⟩

lemma focus_shift_base_eval :
    focus_shift_base_conf [2, 1, 0] [0.5, 0.5, 0.5] 40 = 1 := by
  unfold focus_shift_base_conf
  rw [slope_conf_neg_dist_eval, slope_conf_share_eval]
  have h2 : (1:ℝ) ≤ Real.sqrt 2 := by
    have h := Real.sqrt_le_sqrt (by norm_num : (1:ℝ) ≤ 2)
    rwa [Real.sqrt_one] at h
  have hmax : max (0:ℝ) (Real.sqrt 2 * 1e9) = Real.sqrt 2 * 1e9 :=
    max_eq_right (by positivity)
  rw [hmax]
  have hmin : min (1:ℝ) (0.5 * (Real.sqrt 2 * 1e9 + max 0 0)) = 1 :=
    min_eq_left (by rw [max_self]; nlinarith)
  rw [hmin]
  norm_num

lemma focus_shift_base_conf_bounds (d s : List ℝ) (n : ℕ) :
    0 ≤ focus_shift_base_conf d s n ∧ focus_shift_base_conf d s n ≤ 1 := by
  unfold focus_shift_base_conf
  constructor
  · apply mul_nonneg
    · exact le_min (by norm_num)
        (mul_nonneg (by norm_num) (add_nonneg (le_max_left 0 _) (le_max_left 0 _)))
    · exact le_min (by norm_num) (by positivity)
  · exact mul_le_one₀ (min_le_left _ _)
      (le_min (by norm_num) (by positivity)) (min_le_left _ _)

/-- Claim C7 (amended) — in the main branch of `signal_focus_shift`, when
exactly one of the two trends is positive (`trend_votes == 1`) and the result
is ok, the returned confidence is `0.6` times the undiscounted confidence
(the partial-convergence discount factor is 0.6, not 0.5). -/
theorem focus_shift_partial_discount (d s : List ℝ) (n : ℕ)
    (hg : ¬ (d.length < 3 ∨ s.length < 3 ∨ n < 4))
    (hv : focus_shift_trend_votes d s = 1)
    (hok : focus_shift_ok d s = true) :
    (signal_focus_shift d s n).confidence = 0.6 * focus_shift_base_conf d s n := by
  unfold signal_focus_shift
  rw [if_neg hg]
  simp only
  rw [hok, hv, if_pos rfl, if_pos rfl]
  obtain ⟨hb0, hb1⟩ := focus_shift_base_conf_bounds d s n
  unfold npClip
  rw [max_eq_left (by nlinarith), min_eq_left (by nlinarith)]
  ring

/-- Witness for claim C7 (amended) at the concrete input of the
counterexample: the returned confidence equals 0.6 times the undiscounted
confidence. -/
theorem focus_shift_partial_discount_witness :
    (signal_focus_shift [2, 1, 0] [0.5, 0.5, 0.5] 40).confidence =
      0.6 * focus_shift_base_conf [2, 1, 0] [0.5, 0.5, 0.5] 40 :=
  focus_shift_partial_discount [2, 1, 0] [0.5, 0.5, 0.5] 40 (by norm_num)
    focus_shift_votes_eval focus_shift_ok_eval

/-- Claim C7 (counterexample) — at `dist_series = [2,1,0]`,
`share_series = [0.5,0.5,0.5]`, `n_samples = 40`: exactly one trend is
positive, the result is ok, the undiscounted confidence is 1, and the
returned confidence is 0.6, not half (0.5) of the undiscounted value. -/
theorem focus_shift_half_discount_counterexample :
    focus_shift_trend_votes [2, 1, 0] [0.5, 0.5, 0.5] = 1 ∧
    focus_shift_ok [2, 1, 0] [0.5, 0.5, 0.5] = true ∧
    focus_shift_base_conf [2, 1, 0] [0.5, 0.5, 0.5] 40 = 1 ∧
    (signal_focus_shift [2, 1, 0] [0.5, 0.5, 0.5] 40).confidence = 0.6 ∧
    (signal_focus_shift [2, 1, 0] [0.5, 0.5, 0.5] 40).confidence ≠
      0.5 * focus_shift_base_conf [2, 1, 0] [0.5, 0.5, 0.5] 40 := by
  have hconf : (signal_focus_shift [2, 1, 0] [0.5, 0.5, 0.5] 40).confidence = 0.6 := by
    unfold signal_focus_shift
    rw [if_neg (by norm_num)]
    simp only
    rw [focus_shift_ok_eval, focus_shift_votes_eval, focus_shift_base_eval,
      if_pos rfl, if_pos rfl]
    unfold npClip
    norm_num
  refine ⟨focus_shift_votes_eval, focus_shift_ok_eval, focus_shift_base_eval, hconf, ?_⟩
  rw [hconf, focus_shift_base_eval]
  norm_num

/-! ### The opportunity scorer (`compute_whitespace_metrics`)

Vectors are rows of `X`; `numpy` broadcasting over equal-shaped arrays
becomes `zipWith`/`map` over lists.  `momentum.take(labels, mode="clip")`
clamps each index into the array bounds. -/

noncomputable def addVec (u v : List ℝ) : List ℝ := List.zipWith (· + ·) u v

noncomputable def sumVecs : List (List ℝ) → List ℝ
  | [] => []
  | [v] => v
  | v :: vs => addVec v (sumVecs vs)

/-- `M.mean(axis=0)` over the rows of `M`. -/
noncomputable def meanVec (vs : List (List ℝ)) : List ℝ :=
  (sumVecs vs).map (fun x => x / (vs.length : ℝ))

/-- `np.linalg.norm(u - v)` (Euclidean). -/
noncomputable def euclid (u v : List ℝ) : ℝ :=
  Real.sqrt ((List.zipWith (fun a b => (a - b) ^ 2) u v).sum)

/-- `compute_whitespace_metrics` from `whitespace_api.py`: returns
`(score, proximity, d, F)`. -/
noncomputable def compute_whitespace_metrics
    (X : List (List ℝ)) (labels : List ℕ) (dens : List ℝ) (focus_mask : List Bool)
    (alpha beta : ℝ) (momentum : List ℝ) :
    List ℝ × List ℝ × List ℝ × List ℝ :=
  let maskedRows := (X.zip focus_mask).filterMap (fun p => if p.2 then some p.1 else none)
  let anyFocus := focus_mask.any id
  let F := if anyFocus then meanVec maskedRows else meanVec X
  let alpha1 := if anyFocus then alpha else alpha * 0.5
  let d := X.map (fun row => euclid row F)
  let proximity := d.map (fun t => Real.exp (-(alpha1 * t)))
  let dmin := match dens with | [] => 0 | a :: t => t.foldl min a
  let dmax := match dens with | [] => 0 | a :: t => t.foldl max a
  let densn := dens.map (fun v => (v - dmin) / (dmax - dmin + 1e-9))
  let sparse := densn.map (fun v => 1 - v)
  let mom := labels.map (fun cid => momentum.getD (min cid (momentum.length - 1)) 0)
  let rawScore := List.zipWith (fun ps m => ps.1 * ps.2 * (1 + beta * m)) (proximity.zip sparse) mom
  let score := List.zipWith (fun f sc => if f then 0 else sc) focus_mask rawScore
  (score, proximity, d, F)

lemma getD_zipWith_mask {mask : List Bool} :
    ∀ {l : List ℝ} {i : ℕ}, mask.getD i false = true →
      (List.zipWith (fun f sc => if f then (0:ℝ) else sc) mask l).getD i 0 = 0 := by
  induction mask with
  | nil =>
    intro l i hf
    simp at hf
  | cons f mt ih =>
    intro l i hf
    cases l with
    | nil => simp
    | cons x lt =>
      cases i with
      | zero =>
        simp only [List.getD_cons_zero] at hf
        simp only [List.zipWith_cons_cons, List.getD_cons_zero, hf, if_true]
      | succ j =>
        simp only [List.getD_cons_succ] at hf
        simp only [List.zipWith_cons_cons, List.getD_cons_succ]
        exact ih hf

/-- Claim C1 — every node flagged `is_focus` receives opportunity score
exactly 0 from `compute_whitespace_metrics`, regardless of `alpha`, `beta`,
the node's density, proximity, or its cluster's momentum: the scorer zeroes
`score[focus_mask]` after the multiplicative formula. -/
theorem focus_nodes_score_zero
    (X : List (List ℝ)) (labels : List ℕ) (dens : List ℝ) (focus_mask : List Bool)
    (alpha beta : ℝ) (momentum : List ℝ) (i : ℕ)
    (hf : focus_mask.getD i false = true) :
    (compute_whitespace_metrics X labels dens focus_mask alpha beta momentum).1.getD i 0 = 0 := by
  unfold compute_whitespace_metrics
  simp only
  exact getD_zipWith_mask hf

/-- Witness for claim C1: a two-node corpus whose first node is a focus node
gets score 0. -/
theorem focus_nodes_score_zero_witness :
    ([true, false].getD 0 false = true) ∧
    (compute_whitespace_metrics [[1, 0], [0, 1]] [0, 0] [0.5, 0.5] [true, false]
      1 1 [1]).1.getD 0 0 = 0 :=
  ⟨by decide, focus_nodes_score_zero [[1, 0], [0, 1]] [0, 0] [0.5, 0.5] [true, false]
    1 1 [1] 0 (by decide)⟩

/-! ### Dates, the rolling window and the group payloads
(`build_group_signals` in `whitespace_api.py`)

`datetime.date` values become integer day numbers of the proleptic Gregorian
calendar (days since 1970-01-01, as in Howard Hinnant's civil-date
algorithms); `date` subtraction and `timedelta(days=n)` are plain integer
arithmetic on day numbers, and `_month_floor` replaces the day of month
by 1.  `GraphRequest.date_from` / `date_to` appear as already-parsed
`Option ℤ` day numbers (`_parse_date_str` returns `None` on a missing or
malformed string, which is absorbed into the `Option`). -/

/-- `(y, m, d)` of the civil calendar from a day number. -/
def civilFromDays (z0 : ℤ) : ℤ × ℤ × ℤ :=
  let z := z0 + 719468
  let era := Int.fdiv z 146097
  let doe := z - era * 146097
  let yoe := (doe - doe / 1460 + doe / 36524 - doe / 146096) / 365
  let y := yoe + era * 400
  let doy := doe - (365 * yoe + yoe / 4 - yoe / 100)
  let mp := (5 * doy + 2) / 153
  let d := doy - (153 * mp + 2) / 5 + 1
  let m := mp + (if mp < 10 then 3 else -9)
  (y + (if m ≤ 2 then 1 else 0), m, d)

/-- Day number of a civil date. -/
def daysFromCivil (y m d : ℤ) : ℤ :=
  let y1 := y - (if m ≤ 2 then 1 else 0)
  let era := Int.fdiv y1 400
  let yoe := y1 - era * 400
  let mp := m + (if 2 < m then -3 else 9)
  let doy := (153 * mp + 2) / 5 + d - 1
  let doe := yoe * 365 + yoe / 4 - yoe / 100 + doy
  era * 146097 + doe - 719468

/-- `_month_floor`: `date(d.year, d.month, 1)`. -/
def _month_floor (z : ℤ) : ℤ :=
  let c := civilFromDays z
  daysFromCivil c.1 c.2.1 1

/-- `datetime.date.min` (0001-01-01), the fallback sort key for an unknown
publication date. -/
def PYDATE_MIN : ℤ := daysFromCivil 1 1 1

/-- `NodeDatum` from `whitespace_api.py` (derived metrics per node). -/
structure NodeDatum where
  index : ℕ
  pub_id : String
  assignee : String
  pub_date : Option ℤ
  cluster_id : ℕ
  score : ℝ
  density : ℝ
  proximity : ℝ
  distance : ℝ
  momentum : ℝ
  is_focus : Bool
  title : Option String
  abstract : Option String

/-- Stable insertion used to model Python's stable `sorted`: the new element
goes after every kept element the comparator lets stay in front. -/
def insertLeBy {α : Type} (le : α → α → Bool) (x : α) : List α → List α
  | [] => [x]
  | y :: t => if le y x then y :: insertLeBy le x t else x :: y :: t

/-- Python's `sorted(l, key=...)`: stable insertion sort; `le a b` means `a`
may stay in front of `b` (true on key ties, which preserves stability). -/
def pySortBy {α : Type} (le : α → α → Bool) (l : List α) : List α :=
  l.foldl (fun acc v => insertLeBy le v acc) []

/-- The sort key `(n.pub_date or date.min, n.pub_id)` of the per-group node
sort in `build_group_signals`. -/
def nodeSortLe (a b : NodeDatum) : Bool :=
  let da := a.pub_date.getD PYDATE_MIN
  let db := b.pub_date.getD PYDATE_MIN
  decide (da < db) || (decide (da = db) && decide (a.pub_id ≤ b.pub_id))

/-- `_window_bounds` before its final 60-day floor: `none` when the group has
no dated node, otherwise the clamped `(start_date, end_date)`. -/
def _window_bounds_raw (date_from date_to : Option ℤ)
    (nodes : List NodeDatum) : Option (ℤ × ℤ) :=
  let dated := nodes.filterMap NodeDatum.pub_date
  match dated.max?, dated.min? with
  | some latest, some earliest =>
    let end_date := match date_to with
      | some req_end => min latest req_end
      | none => latest
    let start0 := match date_from with
      | some req_start =>
        if req_start ≤ end_date then
          let span := end_date - req_start
          let span_days := if 0 < span then min (max span 180) 365 else 365
          max req_start (end_date - span_days)
        else end_date - 365
      | none => end_date - 365
    let start1 := if start0 < earliest then earliest else start0
    some (start1, end_date)
  | _, _ => none

/-- `_window_bounds`: the rolling window used for time-series evaluation;
windows spanning fewer than 60 days are rejected. -/
def _window_bounds (date_from date_to : Option ℤ)
    (nodes : List NodeDatum) : Option (ℤ × ℤ) :=
  match _window_bounds_raw date_from date_to nodes with
  | none => none
  | some (s, e) => if e - s < 60 then none else some (s, e)

/-- A signal payload of the API response (`SignalPayload`); `debug` is only
populated when the request asks for it. -/
structure SignalPayload where
  type : String
  status : String
  confidence : ℝ
  why : String
  node_ids : List String
  debug : Option (List (String × ℝ))

/-- The cohort-level context `build_group_signals` computes once before its
group loop: the request dates and debug flag, the cohort score list, the
three quantile thresholds, and the arrays shared with the bridge rule. -/
structure GroupCtx where
  date_from : Option ℤ
  date_to : Option ℤ
  debugFlag : Bool
  cohort_scores_list : List ℝ
  high_ws_threshold : ℝ
  low_ws_threshold : ℝ
  high_density_threshold : ℝ
  labels : ℕ → ℕ
  idx_matrix : ℕ → List ℕ
  dist_matrix : ℕ → ℕ → ℝ
  momentum : List ℝ

/-- Duplicate removal keeping first occurrences, the key order of a Python
`Counter` (insertion order of first appearance). -/
def firstOccurrences (l : List ℕ) : List ℕ :=
  l.foldl (fun acc x => if x ∈ acc then acc else acc ++ [x]) []

/-- `_compute_bridge_inputs`: bridge rule inputs
`(openness, inter_weight, mom_left, mom_right, bridge node indices)`.
`Counter.most_common(2)` is a stable count-descending sort of the distinct
cluster ids in first-appearance order.  The source collects the interface
nodes in a `set` (iteration order unspecified); here they are kept in node
order, which has the same members. -/
noncomputable def _compute_bridge_inputs (assignee_indices : List ℕ) (labels : ℕ → ℕ)
    (idx_matrix : ℕ → List ℕ) (dist_matrix : ℕ → ℕ → ℝ) (momentum : List ℝ) :
    ℝ × ℝ × ℝ × ℝ × List ℕ :=
  if assignee_indices = [] then (1, 0, 0, 0, [])
  else
    let cids := assignee_indices.map labels
    let distinct := firstOccurrences cids
    if distinct.length < 2 then (1, 0, 0, 0, [])
    else
      let top := (pySortBy (fun a b => decide (cids.count b ≤ cids.count a)) distinct).take 2
      let c1 := top.getD 0 0
      let c2 := top.getD 1 0
      let nodeWeights := fun (i : ℕ) =>
        (idx_matrix i).enum.filterMap (fun p =>
          if p.2 = i then none
          else if (labels p.2 = c1 ∨ labels p.2 = c2) ∧ labels p.2 ≠ labels i
          then some (1 - dist_matrix i p.1) else none)
      let inTop := fun (i : ℕ) => decide (labels i = c1 ∨ labels i = c2)
      let bridge_nodes := assignee_indices.filter (fun i => inTop i && !(nodeWeights i).isEmpty)
      let weights := (assignee_indices.filter inTop).flatMap nodeWeights
      let cluster_total := (assignee_indices.filter inTop).length
      let openness := (bridge_nodes.length : ℝ) / ((max 1 cluster_total : ℕ) : ℝ)
      let inter_weight := if weights = [] then 0 else weights.sum / (weights.length : ℝ)
      let mom_left := momentum.getD c1 0
      let mom_right := momentum.getD c2 0
      (openness, inter_weight, mom_left, mom_right, bridge_nodes)

/-- The `_payload` helper of `build_group_signals`: clip the confidence into
`[0, 1]`, take the bucketed status and branch message, and attach the debug
metrics only when requested. -/
noncomputable def mkPayload (debugFlag : Bool) (kind : String)
    (result : SignalComputation) (node_ids : List String) : SignalPayload :=
  ⟨kind, result.status, npClip result.confidence 0 1, result.message, node_ids,
    if debugFlag then some result.debug else none⟩

/-- The `SignalComputation(False, 0.0, "Not enough history for this scope.",
{"samples": 0.0})` used for each signal of a group without a valid window. -/
def insufficientComputation : SignalComputation :=
  ⟨false, 0, "Not enough history for this scope.", [("samples", 0)]⟩

/-- The four fixed payloads of the insufficient-history branch, in source
order; each has confidence 0, empty node ids and no debug payload. -/
noncomputable def insufficientPayloads : List SignalPayload :=
  [⟨"emerging_gap", insufficientComputation.status, 0, insufficientComputation.message, [], none⟩,
   ⟨"bridge", insufficientComputation.status, 0, insufficientComputation.message, [], none⟩,
   ⟨"crowd_out", insufficientComputation.status, 0, insufficientComputation.message, [], none⟩,
   ⟨"focus_shift", insufficientComputation.status, 0, insufficientComputation.message, [], none⟩]

/-- One iteration of the group loop of `build_group_signals`, producing the
group's four signal payloads: `none` models the `continue` for a group with
a valid window but no nodes inside it (the group is skipped); a group
without a valid window gets the four insufficient-history payloads. -/
noncomputable def buildGroupPayload (ctx : GroupCtx) (group : List NodeDatum) :
    Option (List SignalPayload) :=
  let nodes := pySortBy nodeSortLe group
  match _window_bounds ctx.date_from ctx.date_to nodes with
  | none => some insufficientPayloads
  | some (start_date, end_date) =>
    let window_nodes := nodes.filter (fun n => match n.pub_date with
      | some d => decide (start_date ≤ d ∧ d ≤ end_date)
      | none => false)
    if window_nodes.isEmpty then none
    else
      -- monthly buckets, most recent 12 kept; `dedup` keeps one copy of each
      -- month and the ascending sort then matches `sorted(bucket_map.items())`
      let months0 := (window_nodes.filterMap (fun n => n.pub_date.map _month_floor)).dedup
      let months1 := pySortBy (fun a b => decide (a ≤ b)) months0
      let months := if 12 < months1.length then months1.drop (months1.length - 12) else months1
      let bucket := fun (m : ℤ) =>
        window_nodes.filter (fun n => decide (n.pub_date.map _month_floor = some m))
      let mean := fun (f : NodeDatum → ℝ) (m : ℤ) =>
        ((bucket m).map f).sum / ((bucket m).length : ℝ)
      let dist_series := months.map (mean NodeDatum.distance)
      let share_series := months.map (fun m =>
        (((bucket m).filter (fun n => n.is_focus)).length : ℝ) / ((bucket m).length : ℝ))
      let whitespace_series := months.map (mean NodeDatum.score)
      let density_series := months.map (mean NodeDatum.density)
      let momentum_series := months.map (mean NodeDatum.momentum)
      let n_samples := (months.map (fun m => (bucket m).length)).sum
      let latest_nodes := match months.getLast? with
        | some m => bucket m
        | none => []
      let neighbor_momentum_last := (momentum_series.getLast?).getD 0
      let focus_result := signal_focus_shift dist_series share_series n_samples
      let emerging_result :=
        signal_emerging_gap whitespace_series ctx.cohort_scores_list neighbor_momentum_last
      let crowd_result := signal_crowd_out whitespace_series density_series
      let group_indices := nodes.map NodeDatum.index
      let bri := _compute_bridge_inputs group_indices ctx.labels ctx.idx_matrix
        ctx.dist_matrix ctx.momentum
      let bridge_result := signal_bridge bri.1 bri.2.1 bri.2.2.1 bri.2.2.2.1
      let focus_node_ids :=
        ((pySortBy (fun a b => decide (a.distance ≤ b.distance)) latest_nodes).take 6).map
          NodeDatum.pub_id
      let emerging_candidates0 := nodes.filter (fun n =>
        decide (ctx.high_ws_threshold ≤ n.score) && decide ((0.4 : ℝ) ≤ n.proximity))
      let emerging_candidates := if emerging_candidates0.isEmpty then
          (pySortBy (fun a b => decide (b.score ≤ a.score)) nodes).take 5
        else emerging_candidates0
      let emerging_node_ids := (emerging_candidates.take 6).map NodeDatum.pub_id
      let crowd_candidates0 := latest_nodes.filter (fun n =>
        decide (ctx.high_density_threshold ≤ n.density) &&
          decide (n.score ≤ ctx.low_ws_threshold))
      let crowd_candidates := if crowd_candidates0.isEmpty then
          (pySortBy (fun a b => decide (b.density < a.density) ||
            (decide (b.density = a.density) && decide (a.score ≤ b.score))) latest_nodes).take 5
        else crowd_candidates0
      let crowd_node_ids := (crowd_candidates.take 6).map NodeDatum.pub_id
      let bridge_node_ids := bri.2.2.2.2.filterMap (fun i =>
        (nodes.find? (fun n => decide (n.index = i))).map NodeDatum.pub_id)
      some [mkPayload ctx.debugFlag "emerging_gap" emerging_result emerging_node_ids,
        mkPayload ctx.debugFlag "bridge" bridge_result bridge_node_ids,
        mkPayload ctx.debugFlag "crowd_out" crowd_result crowd_node_ids,
        mkPayload ctx.debugFlag "focus_shift" focus_result focus_node_ids]

/-- The group loop of `build_group_signals` over the ordered groups: skipped
groups contribute nothing, every other group contributes its four payloads. -/
noncomputable def buildGroupSignals (ctx : GroupCtx) (groups : List (List NodeDatum)) :
    List (List SignalPayload) :=
  groups.filterMap (buildGroupPayload ctx)

/-! ### Node relevance accumulation (`_payload` and `get_whitespace_graph`)

`node_relevance` is a `defaultdict(float)` updated with
`node_relevance[nid] = max(current, conf)` for every node id of every payload
as it is created; folding the maxima over the produced payloads in order
yields the same map.  `get_whitespace_graph` then reads
`relevance = node_relevance_map.get(node_id, 0.0)`, replaces non-positive
values by `0.15`, and clips into `[0.05, 1.0]`. -/

noncomputable def node_relevance_map (payloads : List SignalPayload) (nid : String) : ℝ :=
  payloads.foldl (fun acc p => if nid ∈ p.node_ids then max acc p.confidence else acc) 0

/-- The relevance stored on a `GraphNode` of the response. -/
noncomputable def graph_node_relevance (payloads : List SignalPayload) (nid : String) : ℝ :=
  let r := node_relevance_map payloads nid
  let r1 := if r ≤ 0 then 0.15 else r
  npClip r1 0.05 1

lemma node_relevance_map_eq_zero {payloads : List SignalPayload} {nid : String}
    (h : ∀ p ∈ payloads, nid ∉ p.node_ids) : node_relevance_map payloads nid = 0 := by
  unfold node_relevance_map
  have hgen : ∀ (acc : ℝ) (ps : List SignalPayload), (∀ p ∈ ps, nid ∉ p.node_ids) →
      ps.foldl (fun acc p => if nid ∈ p.node_ids then max acc p.confidence else acc) acc = acc := by
    intro acc ps
    induction ps generalizing acc with
    | nil => intro _; rfl
    | cons p pt ih =>
      intro hps
      rw [List.foldl_cons, if_neg (hps p (List.mem_cons_self p pt))]
      exact ih acc (fun q hq => hps q (List.mem_cons_of_mem p hq))
  exact hgen 0 payloads h

/-- Claim C10 — every graph node's relevance lies in `[0.05, 1.0]`, and a
node referenced by no signal payload of the analysis (accumulated relevance
0) gets relevance exactly `0.15`. -/
theorem graph_node_relevance_bounds (ctx : GroupCtx) (groups : List (List NodeDatum))
    (nid : String) :
    (0.05 ≤ graph_node_relevance (buildGroupSignals ctx groups).flatten nid ∧
      graph_node_relevance (buildGroupSignals ctx groups).flatten nid ≤ 1) ∧
    ((∀ p ∈ (buildGroupSignals ctx groups).flatten, nid ∉ p.node_ids) →
      graph_node_relevance (buildGroupSignals ctx groups).flatten nid = 0.15) := by
  constructor
  · unfold graph_node_relevance npClip
    constructor
    · exact le_min (le_max_right _ _) (by norm_num)
    · exact min_le_right _ _
  · intro h
    unfold graph_node_relevance
    rw [node_relevance_map_eq_zero h]
    show npClip (if (0:ℝ) ≤ 0 then 0.15 else 0) 0.05 1 = 0.15
    rw [if_pos (le_refl (0:ℝ))]
    unfold npClip
    rw [max_eq_left (by norm_num), min_eq_left (by norm_num)]

/-- Witness for claim C10 at a concrete (empty) analysis: the node "X" is
referenced by no payload and gets relevance 0.15, inside `[0.05, 1]`. -/
theorem graph_node_relevance_bounds_witness :
    (0.05 ≤ graph_node_relevance
        (buildGroupSignals ⟨none, none, false, [], 0, 0, 0, fun _ => 0, fun _ => [],
          fun _ _ => 0, []⟩ []).flatten "X" ∧
      graph_node_relevance
        (buildGroupSignals ⟨none, none, false, [], 0, 0, 0, fun _ => 0, fun _ => [],
          fun _ _ => 0, []⟩ []).flatten "X" ≤ 1) ∧
    graph_node_relevance
      (buildGroupSignals ⟨none, none, false, [], 0, 0, 0, fun _ => 0, fun _ => [],
        fun _ _ => 0, []⟩ []).flatten "X" = 0.15 :=
  ⟨(graph_node_relevance_bounds _ [] "X").1,
    (graph_node_relevance_bounds _ [] "X").2 (by simp [buildGroupSignals])⟩

/-- Claim C3 — a group whose rolling window, after clamping, spans fewer
than 60 days is marked insufficient: `_window_bounds` rejects the window,
the group's payload carries four signals with `ok = false`, confidence 0,
status "none" and an explanatory message, and the surrounding analysis is
unaffected: every other group's payload is exactly what its own computation
gives, wherever the short group sits in the list (no hard failure). -/
theorem short_window_insufficient (ctx : GroupCtx) (g : List NodeDatum) (s e : ℤ)
    (hraw : _window_bounds_raw ctx.date_from ctx.date_to (pySortBy nodeSortLe g) = some (s, e))
    (hspan : e - s < 60) :
    _window_bounds ctx.date_from ctx.date_to (pySortBy nodeSortLe g) = none ∧
    buildGroupPayload ctx g = some insufficientPayloads ∧
    (insufficientComputation.ok = false ∧ insufficientComputation.confidence = 0) ∧
    (∀ p ∈ insufficientPayloads, p.status = "none" ∧ p.confidence = 0 ∧
      p.why = "Not enough history for this scope." ∧ p.node_ids = []) ∧
    (∀ gs₁ gs₂ : List (List NodeDatum),
      buildGroupSignals ctx (gs₁ ++ g :: gs₂) =
        buildGroupSignals ctx gs₁ ++ insufficientPayloads :: buildGroupSignals ctx gs₂) := by
  have hwb : _window_bounds ctx.date_from ctx.date_to (pySortBy nodeSortLe g) = none := by
    unfold _window_bounds
    rw [hraw]
    simp only
    rw [if_pos hspan]
  have hpayload : buildGroupPayload ctx g = some insufficientPayloads := by
    unfold buildGroupPayload
    simp only
    rw [hwb]
  have hstat : insufficientComputation.status = "none" := by
    unfold SignalComputation.status insufficientComputation
    rw [if_pos (Or.inl (by simp))]
  refine ⟨hwb, hpayload, ⟨rfl, rfl⟩, ?_, ?_⟩
  · intro p hp
    simp only [insufficientPayloads, List.mem_cons, List.mem_singleton] at hp
    rcases hp with h | h | h | h | h
    all_goals first
      | (subst h; exact ⟨hstat, rfl, rfl, rfl⟩)
      | simp at h
  · intro gs₁ gs₂
    unfold buildGroupSignals
    rw [List.filterMap_append, List.filterMap_cons, hpayload]

/-- Witness for claim C3: a two-node group dated on days 0 and 45 — its
clamped window `(0, 45)` spans 45 days, under the 60-day floor. -/
theorem short_window_insufficient_witness :
    buildGroupPayload
      ⟨none, none, false, [], 0, 0, 0, fun _ => 0, fun _ => [], fun _ _ => 0, []⟩
      [⟨0, "A", "X", some 0, 0, 0, 0, 0, 0, 0, false, none, none⟩,
        ⟨1, "B", "X", some 45, 0, 0, 0, 0, 0, 0, false, none, none⟩] =
      some insufficientPayloads :=
  (short_window_insufficient
    ⟨none, none, false, [], 0, 0, 0, fun _ => 0, fun _ => [], fun _ _ => 0, []⟩
    [⟨0, "A", "X", some 0, 0, 0, 0, 0, 0, 0, false, none, none⟩,
      ⟨1, "B", "X", some 45, 0, 0, 0, 0, 0, 0, false, none, none⟩]
    0 45 (by decide) (by decide)).2.1
